import Mathlib

/-!
Shallow embedding of the diagnostics pipeline of the `tweec` Twee compiler
(`src/issue.rs`, `src/linter.rs`, `src/story_files.rs`), together with the
models of the external `tweep` data types and the `strsim` / Rust standard
library functions those modules call.  Rust `String`/`&str` values are
modelled as `List Char`; `usize` arithmetic that can wrap is made explicit
with `% 2 ^ 64`.
-/

abbrev Str := List Char

/-- Model of Rust `char::is_whitespace` (the Unicode `White_Space` set). -/
def isRustWhitespace (c : Char) : Bool :=
  c = ' ' || c = '\t' || c = '\n' || c.val = 0xB || c.val = 0xC || c = '\r' ||
  c.val = 0x85 || c.val = 0xA0 || c.val = 0x1680 ||
  (0x2000 ≤ c.val && c.val ≤ 0x200A) ||
  c.val = 0x2028 || c.val = 0x2029 || c.val = 0x202F || c.val = 0x205F ||
  c.val = 0x3000

/-- Model of Rust `str::trim`: drop leading and trailing whitespace. -/
def trimStr (s : Str) : Str :=
  ((s.dropWhile isRustWhitespace).reverse.dropWhile isRustWhitespace).reverse

/-- Model of Rust `str::contains` with a substring (or single-char) pattern. -/
def containsSub (sep : Str) : Str → Bool
  | [] => sep.isEmpty
  | c :: cs => sep.isPrefixOf (c :: cs) || containsSub sep cs

/-- Model of Rust `str::split` with a non-empty substring (or char) pattern:
the list of pieces between consecutive non-overlapping occurrences of `sep`,
scanning left to right. -/
def splitGo (sep : Str) : Str → Str → List Str
  | acc, [] => [acc.reverse]
  | acc, c :: cs =>
    if sep ≠ [] ∧ sep.isPrefixOf (c :: cs) then
      acc.reverse :: splitGo sep [] (cs.drop (sep.length - 1))
    else
      splitGo sep (c :: acc) cs
termination_by _ s => s.length
decreasing_by
  · simp only [List.length_cons]
    have := List.length_drop (sep.length - 1) cs
    omega
  · simp [List.length_cons]

def splitOnSub (sep s : Str) : List Str := splitGo sep [] s

/-- Model of Rust `str::replace`: replace every non-overlapping occurrence of
`pat` (left to right) by `rep`; an empty pattern matches at every char
boundary, as in Rust. -/
def replaceSub (pat rep : Str) : Str → Str
  | [] => if pat = [] then rep else []
  | c :: cs =>
    if pat ≠ [] ∧ pat.isPrefixOf (c :: cs) then
      rep ++ replaceSub pat rep ((c :: cs).drop pat.length)
    else if pat = [] then
      rep ++ c :: replaceSub pat rep cs
    else
      c :: replaceSub pat rep cs
termination_by s => s.length
decreasing_by
  · rename_i h
    simp only [List.length_cons, List.length_drop]
    have : pat.length ≠ 0 := by
      intro hlen
      exact h.1 (List.eq_nil_of_length_eq_zero hlen)
    omega
  · simp [List.length_cons]
  · simp [List.length_cons]

/-- Model of Rust `Vec` stable insertion step for `sort_by`: insert `x` after
every element `y` with `c x y = Ordering.gt`, before the first other one. -/
def insertSorted (c : α → α → Ordering) (x : α) : List α → List α
  | [] => [x]
  | y :: ys => if c x y = Ordering.gt then y :: insertSorted c x ys else x :: y :: ys

/-- Model of Rust `Vec::sort_by` (a stable sort by the comparator `c`),
realised as a stable insertion sort. -/
def sort_by (c : α → α → Ordering) : List α → List α
  | [] => []
  | x :: xs => insertSorted c x (sort_by c xs)

/-! ## The external `tweep` data model -/

/-- Model of `tweep::Position` (start line/column of a context). -/
structure Position where
  line : Nat
  column : Nat
deriving DecidableEq

/-- Model of `tweep::FullContext`: optional file name, text contents, and the
derived start position. -/
structure FullContext where
  file_name : Option Str
  contents : Str
  start_position : Position
deriving DecidableEq

/-- Model of `tweep::WarningKind`: the two kinds the suggestion engine treats
specially, and a generic stand-in for every other kind. -/
inductive WarningKind where
  | DeadLink (target : Str)
  | WhitespaceInLink
  | Other (name : Str)
deriving DecidableEq

/-- Stable name of a warning kind, model of `WarningKind::get_name`. -/
def WarningKind.get_name : WarningKind → Str
  | .DeadLink _ => "DeadLink".data
  | .WhitespaceInLink => "WhitespaceInLink".data
  | .Other n => n

/-- Model of `tweep::Warning`: a kind and an optional primary context
(the referent context is not needed by the verified claims). -/
structure Warning where
  kind : WarningKind
  context : Option FullContext
deriving DecidableEq

/-- Model of `Warning::get_name`. -/
def Warning.get_name (w : Warning) : Str := w.kind.get_name

/-- Model of `tweep::Error`: a stable name and an optional context. -/
structure TweepError where
  name : Str
  context : Option FullContext
deriving DecidableEq

/-- Model of `tweep::ErrorList`. -/
structure ErrorList where
  errors : List TweepError
deriving DecidableEq

/-- Model of `tweep::CodeMap`, reduced to the operations the verified modules
use: per-file sorted line-start offsets, and a debug representation (what
`println!("{:?}", …)` renders). -/
structure CodeMap where
  line_starts : Nat → Option (List Nat)
  debug_repr : Str

/-- Model of `tweep::ContextErrorList`: the error list plus its code map. -/
structure ContextErrorList where
  error_list : ErrorList
  code_map : CodeMap

/-- Model of `tweep::Story`, reduced to what the verified modules read: its
code map and the key set of its passage map. -/
structure Story where
  code_map : CodeMap
  passages : List Str

/-- Model of `tweec::StoryResult = Result<Story, ContextErrorList>`. -/
abbrev StoryResult := Except ContextErrorList Story

/-- Model of `tweec::Config`, reduced to the fields the issue pipeline reads
(`allowed`, `denied`, `compact`). -/
structure Config where
  allowed : List Str
  denied : List Str
  compact : Bool

/-! ## `src/issue.rs` -/

/-- Model of `tweec::Issue`. -/
inductive Issue where
  | Error (e : TweepError)
  | Warning (warning : Warning) (denied : Bool)
deriving DecidableEq

/-- The primary context of an issue, as matched in `filter_and_sort_issues`'s
comparator (and in `Issue::get_file_id_and_range`). -/
def Issue.contextOf : Issue → Option FullContext
  | .Error e => e.context
  | .Warning w _ => w.context

/-- The comparator closure passed to `issues.sort_by` in
`filter_and_sort_issues` (src/issue.rs lines 186-215). -/
def cmpIssue (left right : Issue) : Ordering :=
  match left.contextOf, right.contextOf with
  | none, _ => Ordering.lt
  | _, none => Ordering.gt
  | some lctx, some rctx =>
    match lctx.file_name, rctx.file_name with
    | none, _ => Ordering.lt
    | _, none => Ordering.gt
    | some _, some _ =>
      let lpos := lctx.start_position
      let rpos := rctx.start_position
      if lpos.line = rpos.line then compare lpos.column rpos.column
      else compare lpos.line rpos.line

/-- The warning-classification loop of `filter_and_sort_issues`
(src/issue.rs lines 164-177): returns the surviving warning issues in input
order and the accumulated `is_err` flag. -/
def classifyWarnings (config : Config) : List Warning → List Issue × Bool
  | [] => ([], false)
  | w :: ws =>
    let name := w.get_name
    if config.allowed.contains "all".data || config.allowed.contains name then
      classifyWarnings config ws
    else
      let denied := config.denied.contains "all".data || config.denied.contains name
      let rest := classifyWarnings config ws
      (Issue.Warning w denied :: rest.1, denied || rest.2)

/-- Model of `filter_and_sort_issues` (src/issue.rs lines 156-218). -/
def filter_and_sort_issues (story_result : StoryResult) (warnings : List Warning)
    (config : Config) : List Issue × Bool :=
  let classified := classifyWarnings config warnings
  let combined : List Issue × Bool :=
    match story_result with
    | .ok _ => classified
    | .error e => (classified.1 ++ e.error_list.errors.map Issue.Error, true)
  (sort_by cmpIssue combined.1, combined.2)

/-! ## The `strsim` similarity functions (external dependency of src/issue.rs)

Modelled from the `strsim` crate's `jaro` / `jaro_winkler`, with exact
rational arithmetic in place of `f64`; the counters `matches` and
`transpositions` are integer-valued in the original as well. -/

/-- State of `strsim::jaro`'s matching loop. -/
structure JaroState where
  consumed : List Bool
  matchCount : Nat
  transpositions : Nat
  bMatchIndex : Nat

/-- Inner loop of `strsim::jaro`: find the first index `j` of `b` (starting
at `j0`) with `minB ≤ j ≤ maxB`, `b j = aChar`, and `j` not yet consumed. -/
def jaroFind (aChar : Char) : List Char → List Bool → Nat → Nat → Nat → Option Nat
  | [], _, _, _, _ => none
  | _ :: _, [], _, _, _ => none
  | bc :: bs, cj :: cs, j, minB, maxB =>
    if minB ≤ j ∧ j ≤ maxB ∧ bc = aChar ∧ cj = false then some j
    else jaroFind aChar bs cs (j + 1) minB maxB

/-- One iteration of `strsim::jaro`'s outer loop, for the `i`-th char of `a`. -/
def jaroStep (b : Str) (bLen searchRange : Nat) (st : JaroState) (i : Nat)
    (aChar : Char) : JaroState :=
  let minBound := if i > searchRange then i - searchRange else 0
  let maxBound := min (bLen - 1) (i + searchRange)
  if minBound > maxBound then st
  else
    match jaroFind aChar b st.consumed 0 minBound maxBound with
    | none => st
    | some j =>
      { consumed := st.consumed.set j true
        matchCount := st.matchCount + 1
        transpositions :=
          if j < st.bMatchIndex then st.transpositions + 1 else st.transpositions
        bMatchIndex := j }

/-- Model of `strsim::jaro`. -/
def jaro (a b : Str) : ℚ :=
  let aLen := a.length
  let bLen := b.length
  if aLen = 0 ∧ bLen = 0 then 1
  else if aLen = 0 ∨ bLen = 0 then 0
  else if aLen = 1 ∧ bLen = 1 then (if a = b then 1 else 0)
  else
    let searchRange := max aLen bLen / 2 - 1
    let init : JaroState := ⟨List.replicate bLen false, 0, 0, 0⟩
    let st := a.enum.foldl (fun st p => jaroStep b bLen searchRange st p.1 p.2) init
    if st.matchCount = 0 then 0
    else
      (1 / 3) * ((st.matchCount : ℚ) / aLen + (st.matchCount : ℚ) / bLen +
        ((st.matchCount : ℚ) - st.transpositions) / st.matchCount)

/-- Length of the common prefix of two strings, as in `strsim::jaro_winkler`. -/
def commonPrefixLen (a b : Str) : Nat :=
  ((a.zip b).takeWhile fun p => p.1 == p.2).length

/-- Model of `strsim::jaro_winkler`. -/
def jaro_winkler (a b : Str) : ℚ :=
  let jaroDistance := jaro a b
  let prefixLen := commonPrefixLen a b
  let jw := jaroDistance + (1 / 10) * (prefixLen : ℚ) * (1 - jaroDistance)
  if jw ≤ 1 then jw else 1

/-- Comparator used on candidate scores in `did_you_mean`
(`a.0.partial_cmp(&b.0).unwrap_or(Ordering::Equal)`; scores are never NaN
in the rational model). -/
def cmpRat (x y : ℚ) : Ordering :=
  if x < y then Ordering.lt else if x = y then Ordering.eq else Ordering.gt

/-- Model of `did_you_mean` (src/issue.rs lines 143-155): candidates scoring
strictly above 0.8, sorted by ascending score. -/
def did_you_mean (v : Str) (possible_values : List Str) : List Str :=
  let candidates :=
    (possible_values.map fun pv => (jaro_winkler v pv, pv)).filter
      fun p => decide ((8 : ℚ) / 10 < p.1)
  (sort_by (fun a b => cmpRat a.1 b.1) candidates).map Prod.snd

/-! ## `src/story_files.rs` -/

/-- Model of `tweec::StoryFiles` (the fields; the lifetime-bound reference to
the code map becomes a copy of the model value). -/
structure StoryFiles where
  code_map : CodeMap
  passage_names : Option (List Str)

/-- Model of `StoryFiles::new` (src/story_files.rs lines 17-33).  The second
component records the lines the constructor prints to standard output
(`println!("{:?}", &e.code_map)` in the failure arm). -/
def StoryFiles.new (res : StoryResult) : StoryFiles × List Str :=
  match res with
  | .ok story => (⟨story.code_map, some story.passages⟩, [])
  | .error e => (⟨e.code_map, none⟩, [e.code_map.debug_repr])

/-- Model of Rust `slice::binary_search` on a `Nat` slice: the standard
library's two-pointer loop, returning `Except.ok mid` on an exact hit and
`Except.error left` with the insertion point otherwise. -/
def binarySearchLoop (bytes : List Nat) (target : Nat) (left right : Nat) :
    Except Nat Nat :=
  if h : left < right then
    if bytes.getD (left + (right - left) / 2) 0 < target then
      binarySearchLoop bytes target (left + (right - left) / 2 + 1) right
    else if target < bytes.getD (left + (right - left) / 2) 0 then
      binarySearchLoop bytes target left (left + (right - left) / 2)
    else Except.ok (left + (right - left) / 2)
  else Except.error left
termination_by right - left
decreasing_by
  · omega
  · have : (right - left) / 2 < right - left := Nat.div_lt_self (by omega) (by omega)
    omega

/-- Rust `slice::binary_search` over the whole slice. -/
def binarySearch (bytes : List Nat) (target : Nat) : Except Nat Nat :=
  binarySearchLoop bytes target 0 bytes.length

/-- Model of `<StoryFiles as Files>::line_index` (src/story_files.rs lines
51-58).  The `idx - 1` of the source is `usize` subtraction, hence the
explicit wrap modulo `2 ^ 64`. -/
def StoryFiles.line_index (sf : StoryFiles) (id : Nat) (byte_index : Nat) :
    Option Nat :=
  (sf.code_map.line_starts id).bind fun bytes =>
    match binarySearch bytes byte_index with
    | .ok idx => some idx
    | .error idx => some ((idx + (2 ^ 64 - 1)) % 2 ^ 64)

/-! ## The suggestion engine of `Issue::report` (src/issue.rs lines 76-115) -/

/-- The whitespace-in-link suggestion note built in `Issue::report` for a
warning context `ctx` (src/issue.rs lines 85-111).  The byte slice
`&link[2..link.len() - 2]` becomes the char slice of the same extent (the
two delimiters at either end are one-byte chars in a `[[...]]` link). -/
def whitespaceSuggestion (ctx : FullContext) : Str :=
  let link := ctx.contents
  let contents := (link.drop 2).take (link.length - 4)
  let target :=
    if containsSub "|".data contents then
      ((splitOnSub "|".data contents).drop 1).headD []
    else if containsSub "<-".data contents then
      (splitOnSub "<-".data contents).headD []
    else if containsSub "->".data contents then
      ((splitOnSub "->".data contents).drop 1).headD []
    else contents
  let trimmed := trimStr target
  let suggested := replaceSub target trimmed link
  "Try replacing ".data ++ link ++ " with ".data ++ suggested

/-- The `help_message` computed in `Issue::report` (src/issue.rs lines
76-115), as a function of the `passage_names` carried by the `StoryFiles`
adapter. -/
def help_message (passage_names : Option (List Str)) : Issue → Option Str
  | .Error _ => none
  | .Warning w _ =>
    match w.kind with
    | .DeadLink dead =>
      passage_names.bind fun names =>
        ((did_you_mean dead names).getLast?).map fun suggestion =>
          "Found passage with similar name: \"".data ++ suggestion ++ "\"".data
    | .WhitespaceInLink => w.context.map fun ctx => whitespaceSuggestion ctx
    | .Other _ => none

/-- The allow test of the classification loop (src/issue.rs line 169):
`allow_all || config.allowed.contains(&name)`. -/
def allowedByConfig (config : Config) (w : Warning) : Bool :=
  config.allowed.contains "all".data || config.allowed.contains w.get_name

/-- The deny test of the classification loop (src/issue.rs line 172):
`deny_all || config.denied.contains(&name)`. -/
def deniedByConfig (config : Config) (w : Warning) : Bool :=
  config.denied.contains "all".data || config.denied.contains w.get_name

/-! ## `src/linter.rs` -/

/-- The failure message of `lint`. -/
def failMsg : Str := "Failed due to previous errors".data

/-- Model of `lint` (src/linter.rs lines 21-52), restricted to the result
value: rendering writes to the output stream and is assumed not to fail.
`none` models the panic of `story_result.ok().unwrap()` on a failed parse
result; every other outcome is `some`. -/
def lint (story_result : StoryResult) (warnings : List Warning) (config : Config) :
    Option (Except Str Story) :=
  let r := filter_and_sort_issues story_result warnings config
  if r.2 then some (Except.error failMsg)
  else
    match story_result with
    | .ok story => some (Except.ok story)
    | .error _ => none

/-! ## The whitespace-in-link suggestion as the specification words it

A second rendering of the suggestion algorithm, following the sentence
"if contents contains a pipe the target is everything after the first pipe;
…" and "the first occurrence of the untrimmed target substring replaced by
trimmed", to be compared with `whitespaceSuggestion` (which follows the
source). -/

/-- Everything after the first occurrence of `sep`; `[]` when absent. -/
def afterFirstSub (sep : Str) : Str → Str
  | [] => []
  | c :: cs =>
    if sep ≠ [] ∧ sep.isPrefixOf (c :: cs) then (c :: cs).drop sep.length
    else afterFirstSub sep cs

/-- Everything before the first occurrence of `sep`; the whole string when
absent. -/
def beforeFirstSub (sep : Str) : Str → Str
  | [] => []
  | c :: cs =>
    if sep ≠ [] ∧ sep.isPrefixOf (c :: cs) then []
    else c :: beforeFirstSub sep cs

/-- Replace only the first occurrence of `pat` by `rep`. -/
def replaceFirstSub (pat rep : Str) : Str → Str
  | [] => []
  | c :: cs =>
    if pat ≠ [] ∧ pat.isPrefixOf (c :: cs) then rep ++ (c :: cs).drop pat.length
    else c :: replaceFirstSub pat rep cs

/-- The target-selection precedence exactly as the specification words it:
"everything after the first `|`", "everything before `<-`", "everything
after `->`", else the whole contents. -/
def specTarget (contents : Str) : Str :=
  if containsSub "|".data contents then afterFirstSub "|".data contents
  else if containsSub "<-".data contents then beforeFirstSub "<-".data contents
  else if containsSub "->".data contents then afterFirstSub "->".data contents
  else contents

/-- The whole suggestion note as the specification words it: spec target,
trimmed, first occurrence replaced. -/
def specSuggestion (ctx : FullContext) : Str :=
  let link := ctx.contents
  let contents := (link.drop 2).take (link.length - 4)
  let target := specTarget contents
  let trimmed := trimStr target
  let suggested := replaceFirstSub target trimmed link
  "Try replacing ".data ++ link ++ " with ".data ++ suggested

/-- The target as the source computes it (the `if`/`else if` chain of
src/issue.rs lines 93-105, with `split` modelled by `splitOnSub`). -/
def sourceTarget (contents : Str) : Str :=
  if containsSub "|".data contents then
    ((splitOnSub "|".data contents).drop 1).headD []
  else if containsSub "<-".data contents then
    (splitOnSub "<-".data contents).headD []
  else if containsSub "->".data contents then
    ((splitOnSub "->".data contents).drop 1).headD []
  else contents

/-! ## Concrete inputs used by counterexamples and witnesses -/

/-- A code map with no line-start tables and an empty debug rendering. -/
def cmEmpty : CodeMap := ⟨fun _ => none, []⟩

/-- A code map whose file 0 has line starts 0, 10 and 25. -/
def cmLines : CodeMap := ⟨fun i => if i = 0 then some [0, 10, 25] else none, []⟩

/-- The adapter over `cmLines`. -/
def sfLines : StoryFiles := ⟨cmLines, none⟩

/-- A story with no passages. -/
def storyEmpty : Story := ⟨cmEmpty, []⟩

/-- A failed parse result whose error list is empty. -/
def errNoErrors : ContextErrorList := ⟨⟨[]⟩, cmEmpty⟩

/-- The empty policy: nothing allowed, nothing denied, rich rendering. -/
def cfgEmpty : Config := ⟨[], [], false⟩

/-- A policy denying every warning. -/
def cfgDenyAll : Config := ⟨[], ["all".data], false⟩

/-- A warning of a generic kind with no context. -/
def wOther : Warning := ⟨.Other "w".data, none⟩

/-- The context of a whitespace-in-link warning whose link text contains two
occurrences of the target `" a "` and three pipes. -/
def ctxTwoPipes : FullContext := ⟨none, "[[x| a |y| a ]]".data, ⟨1, 1⟩⟩

/-- A whitespace-in-link warning over `ctxTwoPipes`. -/
def wTwoPipes : Warning := ⟨.WhitespaceInLink, some ctxTwoPipes⟩

/-- The context of the specification's own whitespace-in-link example
`[[ Home | Room 1 ]]`. -/
def ctxHomeRoom : FullContext := ⟨none, "[[ Home | Room 1 ]]".data, ⟨1, 1⟩⟩

/-- A whitespace-in-link warning over `ctxHomeRoom`. -/
def wHomeRoom : Warning := ⟨.WhitespaceInLink, some ctxHomeRoom⟩

/-- Issue `A` of the ordering example: no context. -/
def issueA : Issue := .Warning ⟨.Other "w".data, none⟩ false

/-- Issue `B` of the ordering example: file `a.twee`, line 2, column 3. -/
def issueB : Issue := .Warning ⟨.Other "w".data, some ⟨some "a.twee".data, [], ⟨2, 3⟩⟩⟩ false

/-- Issue `C` of the ordering example: file `a.twee`, line 5, column 1. -/
def issueC : Issue := .Warning ⟨.Other "w".data, some ⟨some "a.twee".data, [], ⟨5, 1⟩⟩⟩ false

/-- An issue whose context lacks a file name (line 7, column 9). -/
def issueNoFile : Issue := .Warning ⟨.Other "v".data, some ⟨none, [], ⟨7, 9⟩⟩⟩ false

/-- A second issue whose context lacks a file name (line 1, column 1). -/
def issueNoFile2 : Issue := .Error ⟨"e".data, some ⟨none, [], ⟨1, 1⟩⟩⟩

/-! ## General lemmas about the sort model -/

theorem insertSorted_perm (c : α → α → Ordering) (x : α) (l : List α) :
    (insertSorted c x l).Perm (x :: l) := by
  induction l with
  | nil => simp [insertSorted]
  | cons y ys ih =>
    simp only [insertSorted]
    by_cases h : c x y = Ordering.gt
    · simp only [h, if_pos]
      exact (ih.cons y).trans (List.Perm.swap x y ys)
    · simp [h]

theorem sort_by_perm (c : α → α → Ordering) (l : List α) :
    (sort_by c l).Perm l := by
  induction l with
  | nil => simp [sort_by]
  | cons x xs ih => exact (insertSorted_perm c x (sort_by c xs)).trans (ih.cons x)

theorem mem_sort_by (c : α → α → Ordering) (l : List α) (a : α) :
    a ∈ sort_by c l ↔ a ∈ l :=
  (sort_by_perm c l).mem_iff

theorem insertSorted_pairwise (c : α → α → Ordering)
    (hGt : ∀ a b, c a b = Ordering.gt → c b a ≠ Ordering.gt)
    (hTrans : ∀ a b d, c a b ≠ Ordering.gt → c b d ≠ Ordering.gt →
      c a d ≠ Ordering.gt)
    (x : α) :
    ∀ l : List α, (l.Pairwise fun a b => c a b ≠ Ordering.gt) →
      (insertSorted c x l).Pairwise fun a b => c a b ≠ Ordering.gt := by
  intro l
  induction l with
  | nil => simp [insertSorted]
  | cons y ys ih =>
    intro hl
    rw [List.pairwise_cons] at hl
    simp only [insertSorted]
    by_cases h : c x y = Ordering.gt
    · simp only [h, if_pos]
      rw [List.pairwise_cons]
      refine ⟨?_, ih hl.2⟩
      intro z hz
      rcases List.mem_cons.mp ((insertSorted_perm c x ys).mem_iff.mp hz) with hz | hz
      · exact hz ▸ hGt x y h
      · exact hl.1 z hz
    · simp only [h, if_neg, if_false]
      rw [List.pairwise_cons]
      refine ⟨?_, List.pairwise_cons.mpr hl⟩
      intro z hz
      rcases List.mem_cons.mp hz with hz | hz
      · exact hz ▸ h
      · exact hTrans x y z h (hl.1 z hz)

theorem sort_by_pairwise (c : α → α → Ordering)
    (hGt : ∀ a b, c a b = Ordering.gt → c b a ≠ Ordering.gt)
    (hTrans : ∀ a b d, c a b ≠ Ordering.gt → c b d ≠ Ordering.gt →
      c a d ≠ Ordering.gt)
    (l : List α) :
    (sort_by c l).Pairwise fun a b => c a b ≠ Ordering.gt := by
  induction l with
  | nil => simp [sort_by]
  | cons x xs ih => exact insertSorted_pairwise c hGt hTrans x _ ih

theorem pairwise_getLast?_max (r : α → α → Prop) :
    ∀ l : List α, l.Pairwise r → ∀ m, l.getLast? = some m →
      ∀ x ∈ l, x = m ∨ r x m := by
  intro l
  induction l with
  | nil => simp
  | cons a t ih =>
    intro hp m hm x hx
    cases t with
    | nil =>
      simp only [List.getLast?_singleton, Option.some.injEq] at hm
      rcases List.mem_singleton.mp hx with hx2
      exact Or.inl (hx2.trans hm)
    | cons b t2 =>
      rw [List.pairwise_cons] at hp
      rw [List.getLast?_cons_cons] at hm
      rcases List.mem_cons.mp hx with hx | hx
      · subst hx
        exact Or.inr (hp.1 m (List.mem_of_mem_getLast? (Option.mem_def.mpr hm)))
      · exact ih hp.2 m hm x hx

/-! ## Lemmas about the classification loop -/

theorem classifyWarnings_cons (config : Config) (w : Warning) (ws : List Warning) :
    classifyWarnings config (w :: ws) =
      if allowedByConfig config w then classifyWarnings config ws
      else
        (Issue.Warning w (deniedByConfig config w) ::
            (classifyWarnings config ws).1,
          deniedByConfig config w || (classifyWarnings config ws).2) := rfl

theorem classifyWarnings_err_iff (config : Config) (ws : List Warning) :
    (classifyWarnings config ws).2 = true ↔
      ∃ w ∈ ws, allowedByConfig config w = false ∧
        deniedByConfig config w = true := by
  induction ws with
  | nil => simp [classifyWarnings]
  | cons w ws ih =>
    rw [classifyWarnings_cons]
    by_cases hAllow : allowedByConfig config w = true
    · rw [if_pos hAllow, ih]
      constructor
      · rintro ⟨v, hv, hva, hvd⟩
        exact ⟨v, List.mem_cons_of_mem w hv, hva, hvd⟩
      · rintro ⟨v, hv, hva, hvd⟩
        rcases List.mem_cons.mp hv with hv | hv
        · subst hv
          rw [hAllow] at hva
          cases hva
        · exact ⟨v, hv, hva, hvd⟩
    · rw [if_neg hAllow]
      simp only [Bool.or_eq_true, ih]
      constructor
      · rintro (hd | ⟨v, hv, hva, hvd⟩)
        · exact ⟨w, List.mem_cons_self w ws,
            Bool.eq_false_iff.mpr hAllow, hd⟩
        · exact ⟨v, List.mem_cons_of_mem w hv, hva, hvd⟩
      · rintro ⟨v, hv, hva, hvd⟩
        rcases List.mem_cons.mp hv with hv | hv
        · subst hv
          exact Or.inl hvd
        · exact Or.inr ⟨v, hv, hva, hvd⟩

theorem classifyWarnings_mem (config : Config) (ws : List Warning) :
    ∀ w d, Issue.Warning w d ∈ (classifyWarnings config ws).1 →
      allowedByConfig config w = false ∧ d = deniedByConfig config w ∧
        w ∈ ws := by
  induction ws with
  | nil => simp [classifyWarnings]
  | cons v vs ih =>
    intro w d hmem
    rw [classifyWarnings_cons] at hmem
    by_cases hAllow : allowedByConfig config v = true
    · rw [if_pos hAllow] at hmem
      obtain ⟨h1, h2, h3⟩ := ih w d hmem
      exact ⟨h1, h2, List.mem_cons_of_mem v h3⟩
    · rw [if_neg hAllow] at hmem
      rcases List.mem_cons.mp hmem with heq | hmem
      · have hw : w = v := by
          cases heq
          rfl
        have hd : d = deniedByConfig config v := by
          cases heq
          rfl
        subst hw
        exact ⟨Bool.eq_false_iff.mpr hAllow, hd, List.mem_cons_self w vs⟩
      · obtain ⟨h1, h2, h3⟩ := ih w d hmem
        exact ⟨h1, h2, List.mem_cons_of_mem v h3⟩

theorem classifyWarnings_filter (config : Config) (ws : List Warning) :
    classifyWarnings config ws =
      classifyWarnings config
        (ws.filter fun w => !allowedByConfig config w) := by
  induction ws with
  | nil => simp [classifyWarnings]
  | cons w ws ih =>
    by_cases hAllow : allowedByConfig config w = true
    · rw [List.filter_cons_of_neg (by simp [hAllow]), classifyWarnings_cons,
        if_pos hAllow]
      exact ih
    · rw [List.filter_cons_of_pos (by simp [Bool.eq_false_iff.mpr hAllow]),
        classifyWarnings_cons, classifyWarnings_cons, if_neg hAllow,
        if_neg hAllow, ih]

/-! ## Lemmas about the binary search of `line_index` -/

theorem getD_lt_getD_of_sorted (bytes : List Nat) (hs : bytes.Pairwise (· < ·))
    (i j : Nat) (hij : i < j) (hj : j < bytes.length) :
    bytes.getD i 0 < bytes.getD j 0 := by
  have hi : i < bytes.length := lt_trans hij hj
  rw [List.getD_eq_getElem bytes 0 hi, List.getD_eq_getElem bytes 0 hj]
  have := List.pairwise_iff_get.mp hs ⟨i, hi⟩ ⟨j, hj⟩ (Fin.mk_lt_mk.mpr hij)
  simpa using this

theorem getD_le_getD_of_sorted (bytes : List Nat) (hs : bytes.Pairwise (· < ·))
    (i j : Nat) (hij : i ≤ j) (hj : j < bytes.length) :
    bytes.getD i 0 ≤ bytes.getD j 0 := by
  rcases Nat.lt_or_ge i j with h | h
  · exact le_of_lt (getD_lt_getD_of_sorted bytes hs i j h hj)
  · have : i = j := le_antisymm hij h
    exact this ▸ le_refl _

theorem binarySearchLoop_spec (bytes : List Nat) (t : Nat)
    (hs : bytes.Pairwise (· < ·)) :
    ∀ n l r, r - l ≤ n → l ≤ r → r ≤ bytes.length →
      (∀ m, binarySearchLoop bytes t l r = Except.ok m →
        l ≤ m ∧ m < r ∧ bytes.getD m 0 = t) ∧
      (∀ ins, binarySearchLoop bytes t l r = Except.error ins →
        l ≤ ins ∧ ins ≤ r ∧
        (∀ i, l ≤ i → i < ins → bytes.getD i 0 < t) ∧
        (∀ i, ins ≤ i → i < r → t < bytes.getD i 0)) := by
  intro n
  induction n with
  | zero =>
    intro l r hn hlr _
    have hrl : l = r := by omega
    subst hrl
    rw [binarySearchLoop, dif_neg (lt_irrefl l)]
    constructor
    · intro m hm
      cases hm
    · intro ins hins
      injection hins with hins
      subst hins
      exact ⟨le_refl _, le_refl _, fun i h1 h2 => by omega,
        fun i h1 h2 => by omega⟩
  | succ n ih =>
    intro l r hn hlr hrlen
    by_cases hlt : l < r
    · rw [binarySearchLoop, dif_pos hlt]
      have hdiv : (r - l) / 2 < r - l := Nat.div_lt_self (by omega) one_lt_two
      set mid := l + (r - l) / 2 with hmiddef
      have hmidl : l ≤ mid := by omega
      have hmidr : mid < r := by omega
      have hmidlen : mid < bytes.length := lt_of_lt_of_le hmidr hrlen
      by_cases h1 : bytes.getD mid 0 < t
      · rw [if_pos h1]
        have ihm := ih (mid + 1) r (by omega) (by omega) hrlen
        constructor
        · intro m hm
          obtain ⟨ha, hb, hc⟩ := ihm.1 m hm
          exact ⟨by omega, hb, hc⟩
        · intro ins hins
          obtain ⟨ha, hb, hc, hd⟩ := ihm.2 ins hins
          refine ⟨by omega, hb, ?_, hd⟩
          intro i hi1 hi2
          by_cases hcase : i ≤ mid
          · exact lt_of_le_of_lt
              (getD_le_getD_of_sorted bytes hs i mid hcase hmidlen) h1
          · exact hc i (by omega) hi2
      · rw [if_neg h1]
        by_cases h2 : t < bytes.getD mid 0
        · rw [if_pos h2]
          have ihm := ih l mid (by omega) (by omega) (by omega)
          constructor
          · intro m hm
            obtain ⟨ha, hb, hc⟩ := ihm.1 m hm
            exact ⟨ha, by omega, hc⟩
          · intro ins hins
            obtain ⟨ha, hb, hc, hd⟩ := ihm.2 ins hins
            refine ⟨ha, by omega, hc, ?_⟩
            intro i hi1 hi2
            by_cases hcase : i < mid
            · exact hd i hi1 hcase
            · exact lt_of_lt_of_le h2
                (getD_le_getD_of_sorted bytes hs mid i (by omega)
                  (lt_of_lt_of_le hi2 hrlen))
        · rw [if_neg h2]
          constructor
          · intro m hm
            injection hm with hm
            subst hm
            exact ⟨hmidl, hmidr, by omega⟩
          · intro ins hins
            cases hins
    · have hrl : l = r := by omega
      subst hrl
      rw [binarySearchLoop, dif_neg (lt_irrefl l)]
      constructor
      · intro m hm
        cases hm
      · intro ins hins
        injection hins with hins
        subst hins
        exact ⟨le_refl _, le_refl _, fun i h1 h2 => by omega,
          fun i h1 h2 => by omega⟩

theorem binarySearch_ok (bytes : List Nat) (t : Nat)
    (hs : bytes.Pairwise (· < ·)) (m : Nat)
    (h : binarySearch bytes t = Except.ok m) :
    m < bytes.length ∧ bytes.getD m 0 = t := by
  obtain ⟨_, hb, hc⟩ :=
    (binarySearchLoop_spec bytes t hs bytes.length 0 bytes.length (by omega)
      (by omega) (le_refl _)).1 m h
  exact ⟨hb, hc⟩

theorem binarySearch_err (bytes : List Nat) (t : Nat)
    (hs : bytes.Pairwise (· < ·)) (ins : Nat)
    (h : binarySearch bytes t = Except.error ins) :
    ins ≤ bytes.length ∧ (∀ i, i < ins → bytes.getD i 0 < t) ∧
      (∀ i, ins ≤ i → i < bytes.length → t < bytes.getD i 0) := by
  obtain ⟨_, hb, hc, hd⟩ :=
    (binarySearchLoop_spec bytes t hs bytes.length 0 bytes.length (by omega)
      (by omega) (le_refl _)).2 ins h
  exact ⟨hb, fun i hi => hc i (Nat.zero_le i) hi, hd⟩

/-! ## Claim theorems -/

/-- C10: `StoryFiles::new` prints the debug representation of the error's
code map to standard output when the parse result is a failure, prints
nothing on a success, and in both cases only reads the parse result (the
returned adapter is a function of it). -/
theorem c10_new_prints_on_failure :
    (∀ s : Story, (StoryFiles.new (Except.ok s)).2 = []) ∧
    (∀ e : ContextErrorList,
      (StoryFiles.new (Except.error e)).2 = [e.code_map.debug_repr]) ∧
    (∀ s : Story,
      (StoryFiles.new (Except.ok s)).1 = ⟨s.code_map, some s.passages⟩) ∧
    (∀ e : ContextErrorList,
      (StoryFiles.new (Except.error e)).1 = ⟨e.code_map, none⟩) :=
  ⟨fun _ => rfl, fun _ => rfl, fun _ => rfl, fun _ => rfl⟩

/-- C4: the issue comparator is not antisymmetric: two issues that both lack
a primary context compare `lt` in both argument orders, and so do two issues
whose contexts both lack a file name. -/
theorem c4_comparator_not_antisymmetric :
    ∀ x y : Issue,
      (x.contextOf = none → y.contextOf = none →
        cmpIssue x y = Ordering.lt ∧ cmpIssue y x = Ordering.lt) ∧
      (∀ cx cy, x.contextOf = some cx → y.contextOf = some cy →
        cx.file_name = none → cy.file_name = none →
        cmpIssue x y = Ordering.lt ∧ cmpIssue y x = Ordering.lt) := by
  intro x y
  constructor
  · intro hx hy
    constructor <;> simp [cmpIssue, hx, hy]
  · intro cx cy hx hy hfx hfy
    constructor <;> simp [cmpIssue, hx, hy, hfx, hfy]

/-- Witness for C4 at concrete issues: a no-context issue compared with
itself, and two distinct file-name-free issues compared both ways. -/
theorem c4_witness :
    (cmpIssue issueA issueA = Ordering.lt ∧
      cmpIssue issueA issueA = Ordering.lt) ∧
    (cmpIssue issueNoFile issueNoFile2 = Ordering.lt ∧
      cmpIssue issueNoFile2 issueNoFile = Ordering.lt) :=
  ⟨(c4_comparator_not_antisymmetric issueA issueA).1 rfl rfl,
   (c4_comparator_not_antisymmetric issueNoFile issueNoFile2).2 _ _
     rfl rfl rfl rfl⟩

/-- C5: sorting `[C, A, B]` with the issue comparator yields `[A, B, C]`;
a no-context issue compares strictly before (and a with-context issue
strictly after) any issue with a context; two file-named contexts compare
by `(line, column)` lexicographically ascending. -/
theorem c5_comparator_ordering :
    sort_by cmpIssue [issueC, issueA, issueB] = [issueA, issueB, issueC] ∧
    (∀ x y cy, x.contextOf = none → y.contextOf = some cy →
      cmpIssue x y = Ordering.lt ∧ cmpIssue y x = Ordering.gt) ∧
    (∀ x y cx cy fx fy, x.contextOf = some cx → y.contextOf = some cy →
      cx.file_name = some fx → cy.file_name = some fy →
      ((cmpIssue x y = Ordering.lt ↔
        (cx.start_position.line < cy.start_position.line ∨
          (cx.start_position.line = cy.start_position.line ∧
            cx.start_position.column < cy.start_position.column))) ∧
       (cmpIssue x y = Ordering.eq ↔
        (cx.start_position.line = cy.start_position.line ∧
          cx.start_position.column = cy.start_position.column)))) := by
  refine ⟨by decide, ?_, ?_⟩
  · intro x y cy hx hy
    constructor <;> simp [cmpIssue, hx, hy]
  · intro x y cx cy fx fy hx hy hfx hfy
    simp only [cmpIssue, hx, hy, hfx, hfy]
    by_cases hline : cx.start_position.line = cy.start_position.line
    · rw [if_pos hline, Nat.compare_eq_lt, Nat.compare_eq_eq]
      omega
    · rw [if_neg hline, Nat.compare_eq_lt, Nat.compare_eq_eq]
      omega

/-- Witness for C5 at concrete issues: `A` before `B` both ways, and the
lexicographic characterisation evaluated on `B` versus `C`. -/
theorem c5_witness :
    (cmpIssue issueA issueB = Ordering.lt ∧
      cmpIssue issueB issueA = Ordering.gt) ∧
    (cmpIssue issueB issueC = Ordering.lt ↔
      ((2 : Nat) < 5 ∨ ((2 : Nat) = 5 ∧ (3 : Nat) < 1))) :=
  ⟨c5_comparator_ordering.2.1 issueA issueB _ rfl rfl,
   (c5_comparator_ordering.2.2 issueB issueC _ _ _ _ rfl rfl rfl rfl).1⟩

/-- C1 (amended): `is_failure` is true exactly when some surviving (not
allowed) warning is denied or the parse result is a failure — including a
failure whose error list is empty. -/
theorem c1_is_failure_iff :
    ∀ (res : StoryResult) (ws : List Warning) (cfg : Config),
      (filter_and_sort_issues res ws cfg).2 = true ↔
        ((∃ w ∈ ws, allowedByConfig cfg w = false ∧
            deniedByConfig cfg w = true) ∨
          ∃ e, res = Except.error e) := by
  intro res ws cfg
  cases res with
  | ok s =>
    show (classifyWarnings cfg ws).2 = true ↔ _
    rw [classifyWarnings_err_iff]
    constructor
    · exact fun h => Or.inl h
    · rintro (h | ⟨e, he⟩)
      · exact h
      · exact Except.noConfusion he
  | error e =>
    show true = true ↔ _
    simp only [true_iff]
    exact Or.inr ⟨e, rfl⟩

/-- Counterexample for C1 as stated: on a failed parse result carrying an
empty error list, with no warnings, classification reports failure although
no denied warning and no parse error exists. -/
theorem c1_counterexample :
    ¬ ((filter_and_sort_issues (Except.error errNoErrors) [] cfgEmpty).2 = true ↔
      ((∃ w ∈ ([] : List Warning), allowedByConfig cfgEmpty w = false ∧
          deniedByConfig cfgEmpty w = true) ∨
        ∃ e, (Except.error errNoErrors : StoryResult) = Except.error e ∧
          e.error_list.errors ≠ [])) := by
  intro h
  rcases h.mp rfl with ⟨w, hw, _⟩ | ⟨e, he, hne⟩
  · exact absurd hw (List.not_mem_nil w)
  · injection he with he
    subst he
    exact hne rfl

/-- C3: allowing suppresses unconditionally and beats deny: classification is
unchanged by deleting the allowed warnings up front, and no allowed warning
ever appears in the output issue list (for any policy, including ones that
also deny the same name). -/
theorem c3_allow_suppresses :
    ∀ (res : StoryResult) (ws : List Warning) (cfg : Config),
      filter_and_sort_issues res ws cfg =
        filter_and_sort_issues res
          (ws.filter fun w => !allowedByConfig cfg w) cfg ∧
      (∀ w d, Issue.Warning w d ∈ (filter_and_sort_issues res ws cfg).1 →
        allowedByConfig cfg w = false) := by
  intro res ws cfg
  constructor
  · simp only [filter_and_sort_issues]
    rw [← classifyWarnings_filter]
  · intro w d hmem
    cases res with
    | ok s =>
      replace hmem : Issue.Warning w d ∈
          sort_by cmpIssue (classifyWarnings cfg ws).1 := hmem
      rw [mem_sort_by] at hmem
      exact (classifyWarnings_mem cfg ws w d hmem).1
    | error e =>
      replace hmem : Issue.Warning w d ∈
          sort_by cmpIssue ((classifyWarnings cfg ws).1 ++
            e.error_list.errors.map Issue.Error) := hmem
      rw [mem_sort_by] at hmem
      rcases List.mem_append.mp hmem with hmem | hmem
      · exact (classifyWarnings_mem cfg ws w d hmem).1
      · exfalso
        rcases List.mem_map.mp hmem with ⟨er, _, heq⟩
        cases heq

/-- Witness for C3: a surviving warning in a concrete run is certified
not-allowed, and the filtering identity evaluated at that run. -/
theorem c3_witness :
    allowedByConfig cfgEmpty wOther = false ∧
    filter_and_sort_issues (Except.ok storyEmpty) [wOther] cfgEmpty =
      filter_and_sort_issues (Except.ok storyEmpty)
        (([wOther]).filter fun w => !allowedByConfig cfgEmpty w) cfgEmpty :=
  ⟨(c3_allow_suppresses (Except.ok storyEmpty) [wOther] cfgEmpty).2 wOther false
      (by decide),
   (c3_allow_suppresses (Except.ok storyEmpty) [wOther] cfgEmpty).1⟩

/-- C7: absent I/O failure, `lint` returns the failure message exactly when
classification failed, and the validated story exactly when it did not;
no other result is possible. -/
theorem c7_lint_result :
    ∀ (res : StoryResult) (ws : List Warning) (cfg : Config),
      ((filter_and_sort_issues res ws cfg).2 = true →
        lint res ws cfg = some (Except.error failMsg)) ∧
      ((filter_and_sort_issues res ws cfg).2 = false →
        ∃ s, res = Except.ok s ∧ lint res ws cfg = some (Except.ok s)) := by
  intro res ws cfg
  constructor
  · intro h
    simp [lint, h]
  · intro h
    cases res with
    | ok s =>
      refine ⟨s, rfl, ?_⟩
      simp [lint, h]
    | error e =>
      exfalso
      have htrue : (filter_and_sort_issues (Except.error e) ws cfg).2 = true := rfl
      rw [htrue] at h
      cases h

/-- Witness for C7: both branches evaluated on concrete runs — a failed
parse with no warnings, and a clean successful parse. -/
theorem c7_witness :
    lint (Except.error errNoErrors) [] cfgEmpty =
      some (Except.error failMsg) ∧
    ∃ s, (Except.ok storyEmpty : StoryResult) = Except.ok s ∧
      lint (Except.ok storyEmpty) [] cfgEmpty = some (Except.ok s) :=
  ⟨(c7_lint_result (Except.error errNoErrors) [] cfgEmpty).1 rfl,
   (c7_lint_result (Except.ok storyEmpty) [] cfgEmpty).2 rfl⟩

/-- C9: whenever classification reports `is_failure = false` the parse
result is the success variant, so the `story_result.ok().unwrap()` at the
end of `lint` (modelled by the `none` outcome) never panics. -/
theorem c9_unwrap_safe :
    (∀ (res : StoryResult) (ws : List Warning) (cfg : Config),
      (filter_and_sort_issues res ws cfg).2 = false →
        ∃ s, res = Except.ok s) ∧
    (∀ (res : StoryResult) (ws : List Warning) (cfg : Config),
      (lint res ws cfg).isSome = true) := by
  constructor
  · intro res ws cfg h
    cases res with
    | ok s => exact ⟨s, rfl⟩
    | error e =>
      have htrue : (filter_and_sort_issues (Except.error e) ws cfg).2 = true := rfl
      rw [htrue] at h
      cases h
  · intro res ws cfg
    by_cases h : (filter_and_sort_issues res ws cfg).2 = true
    · simp [lint, h]
    · have hf : (filter_and_sort_issues res ws cfg).2 = false := by
        simpa using h
      cases res with
      | ok s => simp [lint, hf]
      | error e =>
        have htrue : (filter_and_sort_issues (Except.error e) ws cfg).2 = true := rfl
        rw [htrue] at hf
        cases hf

/-- Witness for C9: the success-variant conclusion extracted from a concrete
clean run, and totality of `lint` evaluated there. -/
theorem c9_witness :
    (∃ s, (Except.ok storyEmpty : StoryResult) = Except.ok s) ∧
    (lint (Except.ok storyEmpty) [] cfgEmpty).isSome = true :=
  ⟨c9_unwrap_safe.1 (Except.ok storyEmpty) [] cfgEmpty rfl,
   c9_unwrap_safe.2 (Except.ok storyEmpty) [] cfgEmpty⟩

/-- C8: `line_index` binary-searches the file's sorted line starts: it
returns the hit index on an exact match, the insertion index minus one
otherwise, and `none` exactly when the code map has no line starts for the
file; on sorted line starts whose first entry does not exceed the offset,
the returned index is the line containing the offset (the largest index
whose line start does not exceed it). -/
theorem c8_line_index :
    (∀ (sf : StoryFiles) (id b : Nat), sf.code_map.line_starts id = none →
      StoryFiles.line_index sf id b = none) ∧
    (∀ (sf : StoryFiles) (id b : Nat) (bytes : List Nat),
      sf.code_map.line_starts id = some bytes →
      (StoryFiles.line_index sf id b).isSome = true) ∧
    (∀ (sf : StoryFiles) (id b : Nat) (bytes : List Nat) (i : Nat),
      sf.code_map.line_starts id = some bytes →
      binarySearch bytes b = Except.ok i →
      StoryFiles.line_index sf id b = some i) ∧
    (∀ (sf : StoryFiles) (id b : Nat) (bytes : List Nat) (ins : Nat),
      sf.code_map.line_starts id = some bytes →
      binarySearch bytes b = Except.error ins →
      1 ≤ ins → ins < 2 ^ 64 →
      StoryFiles.line_index sf id b = some (ins - 1)) ∧
    (∀ (sf : StoryFiles) (id b : Nat) (bytes : List Nat),
      sf.code_map.line_starts id = some bytes →
      bytes.Pairwise (· < ·) → bytes.length < 2 ^ 64 →
      bytes ≠ [] → bytes.getD 0 0 ≤ b →
      ∃ i, StoryFiles.line_index sf id b = some i ∧ i < bytes.length ∧
        bytes.getD i 0 ≤ b ∧
        ∀ j, j < bytes.length → bytes.getD j 0 ≤ b → j ≤ i) := by
  have hnone : ∀ (sf : StoryFiles) (id b : Nat),
      sf.code_map.line_starts id = none →
      StoryFiles.line_index sf id b = none := by
    intro sf id b h
    simp [StoryFiles.line_index, h]
  have hok : ∀ (sf : StoryFiles) (id b : Nat) (bytes : List Nat) (i : Nat),
      sf.code_map.line_starts id = some bytes →
      binarySearch bytes b = Except.ok i →
      StoryFiles.line_index sf id b = some i := by
    intro sf id b bytes i h hbs
    simp [StoryFiles.line_index, h, hbs]
  have herr : ∀ (sf : StoryFiles) (id b : Nat) (bytes : List Nat) (ins : Nat),
      sf.code_map.line_starts id = some bytes →
      binarySearch bytes b = Except.error ins →
      1 ≤ ins → ins < 2 ^ 64 →
      StoryFiles.line_index sf id b = some (ins - 1) := by
    intro sf id b bytes ins h hbs h1 h2
    simp only [StoryFiles.line_index, h, Option.some_bind, hbs]
    have harith : (ins + (2 ^ 64 - 1)) % 2 ^ 64 = ins - 1 := by
      have hsplit : ins + (2 ^ 64 - 1) = (ins - 1) + 2 ^ 64 := by omega
      rw [hsplit, Nat.add_mod_right]
      exact Nat.mod_eq_of_lt (by omega)
    rw [harith]
  have hsome : ∀ (sf : StoryFiles) (id b : Nat) (bytes : List Nat),
      sf.code_map.line_starts id = some bytes →
      (StoryFiles.line_index sf id b).isSome = true := by
    intro sf id b bytes h
    cases hbs : binarySearch bytes b with
    | ok i => simp [StoryFiles.line_index, h, hbs]
    | error ins => simp [StoryFiles.line_index, h, hbs]
  refine ⟨hnone, hsome, hok, herr, ?_⟩
  intro sf id b bytes h hsorted hlen hne hfirst
  have hpos : 0 < bytes.length := List.length_pos.mpr hne
  cases hbs : binarySearch bytes b with
  | ok m =>
    obtain ⟨hmlen, hmval⟩ := binarySearch_ok bytes b hsorted m hbs
    refine ⟨m, hok sf id b bytes m h hbs, hmlen, le_of_eq hmval, ?_⟩
    intro j hj hjle
    by_contra hgt
    have hml : m < j := by omega
    have := getD_lt_getD_of_sorted bytes hsorted m j hml hj
    rw [hmval] at this
    omega
  | error ins =>
    obtain ⟨hinslen, hlow, hhigh⟩ := binarySearch_err bytes b hsorted ins hbs
    have hins1 : 1 ≤ ins := by
      by_contra hins0
      have : ins = 0 := by omega
      subst this
      have := hhigh 0 (le_refl 0) hpos
      omega
    refine ⟨ins - 1, herr sf id b bytes ins h hbs hins1 (by omega), by omega,
      le_of_lt (hlow (ins - 1) (by omega)), ?_⟩
    intro j hj hjle
    by_contra hgt
    have : ins ≤ j := by omega
    have := hhigh j this hj
    omega

/-- Witness for C8 over the concrete line starts `[0, 10, 25]` of `sfLines`:
an exact hit, a miss resolved to the preceding line, the `none` case on a
file with no line starts, and the containing-line conclusion at offset 12. -/
theorem c8_witness :
    StoryFiles.line_index sfLines 0 10 = some 1 ∧
    StoryFiles.line_index sfLines 0 12 = some 1 ∧
    StoryFiles.line_index sfLines 1 7 = none ∧
    ∃ i, StoryFiles.line_index sfLines 0 12 = some i ∧ i < 3 ∧
      [0, 10, 25].getD i 0 ≤ 12 ∧
      ∀ j, j < 3 → [0, 10, 25].getD j 0 ≤ 12 → j ≤ i := by
  refine ⟨?_, ?_, ?_, ?_⟩
  · exact c8_line_index.2.2.1 sfLines 0 10 [0, 10, 25] 1 rfl
      (by simp [binarySearch, binarySearchLoop])
  · exact c8_line_index.2.2.2.1 sfLines 0 12 [0, 10, 25] 2 rfl
      (by simp [binarySearch, binarySearchLoop]) (by omega) (by norm_num)
  · exact c8_line_index.1 sfLines 1 7 rfl
  · have := c8_line_index.2.2.2.2 sfLines 0 12 [0, 10, 25] rfl
      (by simp) (by norm_num) (by simp) (by simp)
    simpa using this

/-- Stripping the two-character delimiters from a bracketed link recovers
its inner text: the slice `[2 .. len-2]` of `[[mid]]` is `mid`. -/
theorem slice_bracketed (mid : Str) :
    (('[' :: '[' :: (mid ++ [']', ']'])).drop 2).take
      (('[' :: '[' :: (mid ++ [']', ']'])).length - 4) = mid := by
  have h1 : ('[' :: '[' :: (mid ++ [']', ']'])).length - 4 = mid.length := by
    simp [List.length_append]
  rw [h1]
  show (mid ++ [']', ']']).take mid.length = mid
  exact List.take_left mid _

/-- C2 (amended): for every whitespace-in-link warning whose context text is
a bracketed link `[[...]]`, the note is `Try replacing <link> with
<suggested>` where the target is the piece of the stripped contents between
the first separator occurrence and the next (`|` and `->`: the second piece
of the split; `<-`: the first piece), and `suggested` replaces **every**
occurrence of the untrimmed target in the link by its trimmed form. -/
theorem c2_whitespace_suggestion (w : Warning) (d : Bool)
    (pn : Option (List Str)) (ctx : FullContext) (mid : Str)
    (hkind : w.kind = WarningKind.WhitespaceInLink)
    (hctx : w.context = some ctx)
    (hlink : ctx.contents = '[' :: '[' :: (mid ++ [']', ']'])) :
    help_message pn (Issue.Warning w d) =
      some ("Try replacing ".data ++ ctx.contents ++ " with ".data ++
        replaceSub (sourceTarget mid) (trimStr (sourceTarget mid))
          ctx.contents) := by
  obtain ⟨kind, wctx⟩ := w
  simp only at hkind hctx
  subst hkind
  subst hctx
  simp only [help_message, Option.map_some']
  congr 1
  simp only [whitespaceSuggestion, sourceTarget, hlink, slice_bracketed]

/-- Witness for C2 on the specification's own example link
`[[ Home | Room 1 ]]`. -/
theorem c2_witness :
    help_message none (Issue.Warning wHomeRoom false) =
      some "Try replacing [[ Home | Room 1 ]] with [[ Home |Room 1]]".data :=
  (c2_whitespace_suggestion wHomeRoom false none ctxHomeRoom
      " Home | Room 1 ".data rfl rfl rfl).trans (by
    simp +decide [sourceTarget, containsSub, splitOnSub, splitGo, trimStr,
      replaceSub, isRustWhitespace, List.isPrefixOf, ctxHomeRoom])

/-- Counterexample for C2 as stated: on the link `[[x| a |y| a ]]` the code
takes the piece between the first two pipes and replaces **all** its
occurrences, while the claim's words (everything after the first pipe,
first occurrence replaced) predict a different note. -/
theorem c2_counterexample :
    help_message none (Issue.Warning wTwoPipes false) =
      some "Try replacing [[x| a |y| a ]] with [[x|a|y|a]]".data ∧
    specSuggestion ctxTwoPipes =
      "Try replacing [[x| a |y| a ]] with [[x|a |y| a]]".data ∧
    help_message none (Issue.Warning wTwoPipes false) ≠
      some (specSuggestion ctxTwoPipes) := by
  refine ⟨?_, ?_, ?_⟩
  · simp only [help_message, wTwoPipes, Option.map_some']
    simp +decide [whitespaceSuggestion, ctxTwoPipes, containsSub, splitOnSub,
      splitGo, trimStr, replaceSub, isRustWhitespace, List.isPrefixOf]
  · simp +decide [specSuggestion, specTarget, ctxTwoPipes, containsSub,
      afterFirstSub, beforeFirstSub, trimStr, replaceFirstSub,
      isRustWhitespace, List.isPrefixOf]
  · intro hcontra
    have h1 : help_message none (Issue.Warning wTwoPipes false) =
        some "Try replacing [[x| a |y| a ]] with [[x|a|y|a]]".data := by
      simp only [help_message, wTwoPipes, Option.map_some']
      simp +decide [whitespaceSuggestion, ctxTwoPipes, containsSub, splitOnSub,
        splitGo, trimStr, replaceSub, isRustWhitespace, List.isPrefixOf]
    have h2 : specSuggestion ctxTwoPipes =
        "Try replacing [[x| a |y| a ]] with [[x|a |y| a]]".data := by
      simp +decide [specSuggestion, specTarget, ctxTwoPipes, containsSub,
        afterFirstSub, beforeFirstSub, trimStr, replaceFirstSub,
        isRustWhitespace, List.isPrefixOf]
    rw [h1, h2] at hcontra
    exact absurd (Option.some_inj.mp hcontra) (by decide)

/-- The comparator `cmpRat` used on candidate scores is `gt`-free exactly on
ascending pairs. -/
theorem cmpRat_ne_gt_iff (x y : ℚ) : cmpRat x y ≠ Ordering.gt ↔ x ≤ y := by
  unfold cmpRat
  split_ifs with h1 h2
  · simp [le_of_lt h1]
  · simp [le_of_eq h2]
  · simp only [ne_eq, not_true_eq_false, false_iff, not_le]
    exact lt_of_le_of_ne (le_of_not_lt h1) fun hyx => h2 hyx.symm

/-- C6: `did_you_mean` keeps exactly the candidates whose Jaro–Winkler score
strictly exceeds 0.8; the last element of its result — the one
`Issue::report` pops as the dead-link suggestion — is a surviving candidate
of maximal score; `did_you_mean("Satrt", ["Start", "End"])` returns
`["Start"]`; and when no candidate survives the result is empty, so no
suggestion is produced. -/
theorem c6_did_you_mean :
    (∀ (v : Str) (cs : List Str),
      (did_you_mean v cs).Perm
        (cs.filter fun c => decide ((8 : ℚ) / 10 < jaro_winkler v c))) ∧
    (∀ (v : Str) (cs : List Str) (s : Str),
      (did_you_mean v cs).getLast? = some s →
      s ∈ cs ∧ (8 : ℚ) / 10 < jaro_winkler v s ∧
        ∀ c ∈ cs, (8 : ℚ) / 10 < jaro_winkler v c →
          jaro_winkler v c ≤ jaro_winkler v s) ∧
    did_you_mean "Satrt".data ["Start".data, "End".data] = ["Start".data] ∧
    (∀ (v : Str) (cs : List Str),
      (∀ c ∈ cs, ¬ ((8 : ℚ) / 10 < jaro_winkler v c)) →
        did_you_mean v cs = []) := by
  have hGt : ∀ a b : ℚ × Str,
      (fun a b : ℚ × Str => cmpRat a.1 b.1) a b = Ordering.gt →
      (fun a b : ℚ × Str => cmpRat a.1 b.1) b a ≠ Ordering.gt := by
    intro a b hab
    rw [show (fun a b : ℚ × Str => cmpRat a.1 b.1) b a = cmpRat b.1 a.1 from rfl,
      cmpRat_ne_gt_iff]
    have hlt : ¬ (a.1 ≤ b.1) := fun hle =>
      ((cmpRat_ne_gt_iff a.1 b.1).mpr hle) hab
    exact le_of_lt (lt_of_not_le hlt)
  have hTrans : ∀ a b d : ℚ × Str,
      (fun a b : ℚ × Str => cmpRat a.1 b.1) a b ≠ Ordering.gt →
      (fun a b : ℚ × Str => cmpRat a.1 b.1) b d ≠ Ordering.gt →
      (fun a b : ℚ × Str => cmpRat a.1 b.1) a d ≠ Ordering.gt := by
    intro a b d hab hbd
    rw [show (fun a b : ℚ × Str => cmpRat a.1 b.1) a d = cmpRat a.1 d.1 from rfl,
      cmpRat_ne_gt_iff]
    exact le_trans ((cmpRat_ne_gt_iff a.1 b.1).mp hab)
      ((cmpRat_ne_gt_iff b.1 d.1).mp hbd)
  refine ⟨?_, ?_, ?_, ?_⟩
  · intro v cs
    simp only [did_you_mean]
    refine ((sort_by_perm _ _).map Prod.snd).trans ?_
    have heq : ((cs.map fun pv => (jaro_winkler v pv, pv)).filter
        fun p => decide ((8 : ℚ) / 10 < p.1)).map Prod.snd =
        cs.filter fun c => decide ((8 : ℚ) / 10 < jaro_winkler v c) := by
      have hcomp1 : (fun p : ℚ × Str => decide ((8 : ℚ) / 10 < p.1)) ∘
          (fun pv => (jaro_winkler v pv, pv)) =
          fun c => decide ((8 : ℚ) / 10 < jaro_winkler v c) := rfl
      have hcomp2 : Prod.snd ∘ (fun pv : Str => (jaro_winkler v pv, pv)) =
          id := rfl
      rw [List.filter_map, List.map_map, hcomp1, hcomp2, List.map_id]
    rw [heq]
  · intro v cs s hlast
    simp only [did_you_mean] at hlast
    rw [List.getLast?_map] at hlast
    obtain ⟨p, hp, hps⟩ := Option.map_eq_some'.mp hlast
    have hpmem : p ∈ sort_by (fun a b : ℚ × Str => cmpRat a.1 b.1)
        ((cs.map fun pv => (jaro_winkler v pv, pv)).filter
          fun p => decide ((8 : ℚ) / 10 < p.1)) :=
      List.mem_of_mem_getLast? (Option.mem_def.mpr hp)
    rw [mem_sort_by] at hpmem
    obtain ⟨hpin, hpq⟩ := List.mem_filter.mp hpmem
    obtain ⟨pv, hpv, hfeq⟩ := List.mem_map.mp hpin
    subst hfeq
    replace hps : pv = s := hps
    subst hps
    refine ⟨hpv, by simpa using of_decide_eq_true hpq, ?_⟩
    intro cand hcand hcandgt
    have hcmem : (jaro_winkler v cand, cand) ∈
        (cs.map fun pv => (jaro_winkler v pv, pv)).filter
          (fun p => decide ((8 : ℚ) / 10 < p.1)) :=
      List.mem_filter.mpr ⟨List.mem_map_of_mem _ hcand, by simpa using hcandgt⟩
    rw [← mem_sort_by (fun a b : ℚ × Str => cmpRat a.1 b.1)] at hcmem
    have hsorted := sort_by_pairwise (fun a b : ℚ × Str => cmpRat a.1 b.1)
      hGt hTrans
      ((cs.map fun pv => (jaro_winkler v pv, pv)).filter
        fun p => decide ((8 : ℚ) / 10 < p.1))
    rcases pairwise_getLast?_max _ _ hsorted _ hp _ hcmem with heq | hrel
    · exact le_of_eq (congrArg Prod.fst heq)
    · exact (cmpRat_ne_gt_iff _ _).mp hrel
  · have h1 : jaro_winkler "Satrt".data "Start".data = 47 / 50 := by
      simp +decide [jaro_winkler, jaro, commonPrefixLen, jaroStep, jaroFind,
        List.enum, List.enumFrom, List.replicate, List.takeWhile]
      norm_num
    have h2 : jaro_winkler "Satrt".data "End".data = 0 := by
      simp +decide [jaro_winkler, jaro, commonPrefixLen, jaroStep, jaroFind,
        List.enum, List.enumFrom, List.replicate, List.takeWhile]
    simp only [did_you_mean, List.map_cons, List.map_nil, h1, h2]
    norm_num [sort_by, insertSorted, cmpRat]
  · intro v cs h
    simp only [did_you_mean]
    have hfil : (cs.map fun pv => (jaro_winkler v pv, pv)).filter
        (fun p => decide ((8 : ℚ) / 10 < p.1)) = [] := by
      rw [List.filter_eq_nil_iff]
      intro p hp
      rcases List.mem_map.mp hp with ⟨pv, hpv, rfl⟩
      simpa using h pv hpv
    rw [hfil]
    rfl

/-- Witness for C6: the suggestion facts extracted at the concrete call
`did_you_mean "Satrt" ["Start", "End"]`, whose popped last element is
`"Start"`. -/
theorem c6_witness :
    "Start".data ∈ ["Start".data, "End".data] ∧
    (8 : ℚ) / 10 < jaro_winkler "Satrt".data "Start".data ∧
    ∀ c ∈ ["Start".data, "End".data],
      (8 : ℚ) / 10 < jaro_winkler "Satrt".data c →
        jaro_winkler "Satrt".data c ≤ jaro_winkler "Satrt".data "Start".data :=
  c6_did_you_mean.2.1 "Satrt".data ["Start".data, "End".data] "Start".data
    (by rw [c6_did_you_mean.2.2.1]; rfl)
